import Mathlib

/-!
Shallow embedding of `shadowsocks/mdb/models.py` (the `User` peewee model):
the user store, the bulk upsert, the by-port candidate listing, the
accounting primitives, the metrics flush, and the cipher-trial
identification loop `find_access_user_and_cipher_by_data`.

The persistent table is modelled as a list of records; a SQL
`UPDATE ... WHERE user_id == i` is a map over the list touching every
record whose `user_id` equals `i` (the primary-key constraint makes that
at most one in the real database, but none of the theorems below assume
it unless stated). Strings, integers and sets are Lean `String`, `Nat`/`Int`
and deduplicated `List String`.
-/

namespace Shadowsocks

/-- Row of the `User` table, with the peewee defaults of models.py:
`enable = True`, `speed_limit = 0`, `access_order = 0`, `need_sync = False`,
`ip_list = set()`, `tcp_conn_num = 0`, `upload_traffic = 0`,
`download_traffic = 0`. -/
structure User where
  user_id : Nat
  port : Nat
  method : String
  password : String
  enable : Bool
  speed_limit : Nat
  access_order : Nat
  need_sync : Bool
  ip_list : List String
  tcp_conn_num : Int
  upload_traffic : Nat
  download_traffic : Nat
deriving DecidableEq, Repr

/-- One record of a definitions payload `{"users": [...]}`. `user_id` is
`none` when the key is absent (in the source, `data.pop("user_id")` then
raises `KeyError`, the malformed-definition failure). -/
structure UserData where
  user_id : Option Nat
  port : Nat
  method : String
  password : String
  enable : Bool
  speed_limit : Nat
deriving DecidableEq, Repr

abbrev Store := List User

/-- Modelled from the spec: `BaseModel.update_from_dict` lives in
`shadowsocks/mdb/__init__.py`, which is not part of the sources here; per
the spec it applies exactly the allow-listed mutable fields
`__attr_accessible__ = {port, method, password, enable, speed_limit}` and
never the protected `user_id`. -/
def setAccessible (d : UserData) (u : User) : User :=
  { u with port := d.port, method := d.method, password := d.password,
           enable := d.enable, speed_limit := d.speed_limit }

/-- Fresh row built by `get_or_create(user_id=i, defaults=data)`: the payload
fields plus the model defaults for every other column. -/
def newUser (i : Nat) (d : UserData) : User :=
  { user_id := i, port := d.port, method := d.method, password := d.password,
    enable := d.enable, speed_limit := d.speed_limit,
    access_order := 0, need_sync := false, ip_list := [],
    tcp_conn_num := 0, upload_traffic := 0, download_traffic := 0 }

/-- Embedding of `User._create_or_update_user_from_data` (models.py:36-45):
pop `user_id` (absent key fails), `get_or_create`, and on an existing row
apply the accessible fields and save. `none` is the `KeyError` /
`MalformedDefinition` outcome. -/
def create_or_update_user_from_data (s : Store) (d : UserData) : Option Store :=
  match d.user_id with
  | none => none
  | some i =>
    if s.any (fun u => u.user_id == i) then
      some (s.map fun u => if u.user_id == i then setAccessible d u else u)
    else
      some (s ++ [newUser i d])

/-- Embedding of `User.create_or_update_from_json` (models.py:63-68): the
parsed `users` payload is applied record by record, each in its own
transaction; the Boolean is true when the loop aborted on a record with no
`user_id`, and the store component is the state left behind at that point. -/
def create_or_update_from_json (s : Store) : List UserData → Store × Bool
  | [] => (s, false)
  | d :: rest =>
    match create_or_update_user_from_data s d with
    | none => (s, true)
    | some s' => create_or_update_from_json s' rest

/-- Stable insertion of a record into a list kept sorted by `access_order`
descending; models the `ORDER BY access_order DESC` of `list_by_port`,
with ties kept in the underlying scan order of the table. -/
def order_desc_insert (u : User) : List User → List User
  | [] => [u]
  | v :: rest =>
    if v.access_order ≤ u.access_order then u :: v :: rest
    else v :: order_desc_insert u rest

/-- Sort by `access_order` descending. -/
def order_desc_sort : List User → List User
  | [] => []
  | u :: rest => order_desc_insert u (order_desc_sort rest)

/-- Embedding of `User.list_by_port` (models.py:47-61):
`SELECT ... WHERE port == port ORDER BY access_order DESC`. -/
def list_by_port (s : Store) (port : Nat) : List User :=
  order_desc_sort (s.filter fun u => u.port == port)

/-- Set-insert into the deduplicated `ip_list` (`set.add`). -/
def ipInsert (host : String) (l : List String) : List String :=
  if host ∈ l then l else l ++ [host]

/-- Embedding of `User.record_ip` (models.py:104-111). The `peername` tuple
is modelled as a list of its components; the guard `if not peername: return`
is the empty list. Otherwise `peername[0]` joins `ip_list` and `need_sync`
is set. -/
def record_ip (s : Store) (uid : Nat) (peername : List String) : Store :=
  match peername with
  | [] => s
  | host :: _ =>
    s.map fun u =>
      if u.user_id == uid then
        { u with ip_list := ipInsert host u.ip_list, need_sync := true }
      else u

/-- Embedding of `User.record_traffic` (models.py:113-119): add the used
bytes to both counters and set `need_sync`, even when both are zero. -/
def record_traffic (s : Store) (uid : Nat) (used_u used_d : Nat) : Store :=
  s.map fun u =>
    if u.user_id == uid then
      { u with upload_traffic := u.upload_traffic + used_u,
               download_traffic := u.download_traffic + used_d,
               need_sync := true }
    else u

/-- Embedding of `User.incr_tcp_conn_num` (models.py:121-125): adjust the
live-connection counter and set `need_sync`. -/
def incr_tcp_conn_num (s : Store) (uid : Nat) (num : Int) : Store :=
  s.map fun u =>
    if u.user_id == uid then
      { u with tcp_conn_num := u.tcp_conn_num + num, need_sync := true }
    else u

/-- One element of the `data` JSON list posted by
`flush_metrics_to_remote`. -/
structure MetricsData where
  user_id : Nat
  ip_list : List String
  tcp_conn_num : Int
  upload_traffic : Nat
  download_traffic : Nat
deriving DecidableEq, Repr

/-- The wire record built from a drained row. -/
def toMetricsData (u : User) : MetricsData :=
  { user_id := u.user_id, ip_list := u.ip_list,
    tcp_conn_num := u.tcp_conn_num, upload_traffic := u.upload_traffic,
    download_traffic := u.download_traffic }

/-- Reset applied by the drain `UPDATE`: clear `ip_list`, both traffic
counters and `need_sync`; every other column (notably `tcp_conn_num` and
`access_order`) keeps its value. -/
def drainReset (u : User) : User :=
  { u with ip_list := [], upload_traffic := 0, download_traffic := 0,
           need_sync := false }

/-- Embedding of `User.flush_metrics_to_remote` (models.py:77-102): inside
one transaction select the dirty rows and reset them, then build the wire
payload and post it. `postOk` stands for the outcome of the outbound HTTP
call, which happens after the transaction committed; the returned Boolean
reports it. -/
def flush_metrics_to_remote (s : Store) (postOk : Bool) :
    Store × List MetricsData × Bool :=
  let users := s.filter fun u => u.need_sync
  let s' := s.map fun u => if u.need_sync then drainReset u else u
  (s', users.map toMetricsData, postOk)

/-- Outcome of one cipher trial `cipher_cls(password)` +
`decrypt`/`unpack(first_data)`: success, `ValueError("MAC check failed")`,
or any other error. -/
inductive TrialResult where
  | ok : TrialResult
  | badMAC : TrialResult
  | otherError : TrialResult
deriving DecidableEq, Repr

/-- Outcome of the trial loop over the candidate list. -/
inductive LoopOut where
  | found : User → LoopOut
  | exhausted : LoopOut
  | errored : LoopOut
deriving DecidableEq, Repr

/-- The `for user in cls.list_by_port(port).iterator()` loop of
models.py:134-145, abstracted over the trial outcome as a function of the
password of the candidate (cipher class, transport flag and first chunk are
fixed for one call). Returns the outcome together with how many candidates
were tried. A `badMAC` trial moves on to the next candidate; an
`otherError` re-raises at once. -/
def trialLoop (trial : String → TrialResult) : List User → LoopOut × Nat
  | [] => (LoopOut.exhausted, 0)
  | u :: rest =>
    match trial u.password with
    | TrialResult.ok => (LoopOut.found u, 1)
    | TrialResult.badMAC =>
      let r := trialLoop trial rest
      (r.1, r.2 + 1)
    | TrialResult.otherError => (LoopOut.errored, 1)

/-- Result of `find_access_user_and_cipher_by_data`: the id of the matched
user,
the `RuntimeError` of models.py:147 (no accessible user), a propagated
non-MAC trial error, or a propagated failure of the `save()` at
models.py:152. -/
inductive IdOutcome where
  | matched : Nat → IdOutcome
  | noAccessibleUser : IdOutcome
  | cipherError : IdOutcome
  | saveError : IdOutcome
deriving DecidableEq, Repr

/-- The `access_order` bump persisted by `access_user.save()`
(models.py:151-152). -/
def markMatched (s : Store) (uid : Nat) : Store :=
  s.map fun u =>
    if u.user_id == uid then { u with access_order := u.access_order + 1 }
    else u

/-- Embedding of `User.find_access_user_and_cipher_by_data`
(models.py:127-153). `saveOk` stands for whether the `save()` persisting
the `access_order` bump succeeds; when it does not, the exception
propagates out of the method before the return. -/
def find_access_user_and_cipher_by_data (s : Store) (port : Nat)
    (trial : String → TrialResult) (saveOk : Bool) : IdOutcome × Store :=
  match (trialLoop trial (list_by_port s port)).1 with
  | LoopOut.errored => (IdOutcome.cipherError, s)
  | LoopOut.exhausted => (IdOutcome.noAccessibleUser, s)
  | LoopOut.found u =>
    if u.enable = false then (IdOutcome.noAccessibleUser, s)
    else if saveOk then (IdOutcome.matched u.user_id, markMatched s u.user_id)
    else (IdOutcome.saveError, s)

/-- Store states reachable through the operations of models.py from the
empty table. -/
inductive Reachable : Store → Prop where
  | init : Reachable []
  | upsert (payload : List UserData) {s : Store} :
      Reachable s → Reachable (create_or_update_from_json s payload).1
  | recordIp (uid : Nat) (peername : List String) {s : Store} :
      Reachable s → Reachable (record_ip s uid peername)
  | recordTraffic (uid : Nat) (used_u used_d : Nat) {s : Store} :
      Reachable s → Reachable (record_traffic s uid used_u used_d)
  | incrTcp (uid : Nat) (num : Int) {s : Store} :
      Reachable s → Reachable (incr_tcp_conn_num s uid num)
  | flush (postOk : Bool) {s : Store} :
      Reachable s → Reachable (flush_metrics_to_remote s postOk).1
  | identify (port : Nat) (trial : String → TrialResult) (saveOk : Bool)
      {s : Store} :
      Reachable s →
      Reachable (find_access_user_and_cipher_by_data s port trial saveOk).2

/-! Concrete fixtures used by witnesses and counterexamples. -/

/-- Enabled demo user on port 8388 with password "pA". -/
def uA : User :=
  { user_id := 1, port := 8388, method := "aes-256-gcm", password := "pA",
    enable := true, speed_limit := 0, access_order := 0, need_sync := false,
    ip_list := [], tcp_conn_num := 0, upload_traffic := 0,
    download_traffic := 0 }

/-- Dirty demo user with some drained traffic pending. -/
def uDirty : User :=
  { uA with user_id := 2, password := "pB", need_sync := true,
            upload_traffic := 5, download_traffic := 7,
            ip_list := ["10.0.0.9"] }

/-- One-user demo store. -/
def demoStore : Store := [uA]

/-- Trial oracle: every candidate fails MAC verification. -/
def trialAllBad : String → TrialResult := fun _ => TrialResult.badMAC

/-- Trial oracle: every candidate raises a non-MAC error. -/
def trialAllErr : String → TrialResult := fun _ => TrialResult.otherError

/-- Trial oracle: exactly the password "pA" decodes; all others fail MAC. -/
def trialMatchA : String → TrialResult :=
  fun p => if p == "pA" then TrialResult.ok else TrialResult.badMAC

/-- When no candidate raises a non-MAC error, the trial loop finds exactly
the first candidate whose trial decodes, and exhausts otherwise. -/
theorem trialLoop_char (trial : String → TrialResult) :
    ∀ L : List User,
      (∀ u ∈ L, trial u.password ≠ TrialResult.otherError) →
      (trialLoop trial L).1 =
        match L.find? (fun v => trial v.password == TrialResult.ok) with
        | some u => LoopOut.found u
        | none => LoopOut.exhausted
  | [], _ => by simp [trialLoop]
  | u :: rest, h => by
    rcases t : trial u.password with _ | _ | _
    · simp [trialLoop, List.find?_cons, t]
    · simp only [trialLoop, List.find?_cons, t]
      simpa using trialLoop_char trial rest
        (fun v hv => h v (List.mem_cons_of_mem u hv))
    · exact absurd t (h u (List.mem_cons_self u rest))

/-- When every trial fails MAC verification, the loop exhausts the whole
candidate list and the trial count equals its length. -/
theorem trialLoop_allBad (trial : String → TrialResult) :
    ∀ L : List User,
      (∀ u ∈ L, trial u.password = TrialResult.badMAC) →
      trialLoop trial L = (LoopOut.exhausted, L.length)
  | [], _ => by simp [trialLoop]
  | u :: rest, h => by
    have t := h u (List.mem_cons_self u rest)
    simp [trialLoop, t,
      trialLoop_allBad trial rest (fun v hv => h v (List.mem_cons_of_mem u hv))]

/-- The outcome component of the identification call as a case split on the
loop outcome. -/
theorem find_access_fst (s : Store) (port : Nat)
    (trial : String → TrialResult) (saveOk : Bool) :
    (find_access_user_and_cipher_by_data s port trial saveOk).1 =
      match (trialLoop trial (list_by_port s port)).1 with
      | LoopOut.errored => IdOutcome.cipherError
      | LoopOut.exhausted => IdOutcome.noAccessibleUser
      | LoopOut.found u =>
        if u.enable = false then IdOutcome.noAccessibleUser
        else if saveOk then IdOutcome.matched u.user_id
        else IdOutcome.saveError := by
  simp only [find_access_user_and_cipher_by_data]
  rcases (trialLoop trial (list_by_port s port)).1 with u | _ | _
  · dsimp only
    split_ifs <;> rfl
  · rfl
  · rfl

/-- C10: record_ip with an empty or absent peername returns before touching
anything: the store — every field of every record, ip_list and need_sync
included — is exactly as before. -/
theorem spec_C10_record_ip_empty_noop (s : Store) (uid : Nat) :
    record_ip s uid [] = s := rfl

/-- Every record left behind by a flush is clean, dirty or not before. -/
theorem flush_all_clean (s : Store) (postOk : Bool) :
    ∀ u ∈ (flush_metrics_to_remote s postOk).1, u.need_sync = false := by
  intro u hu
  simp only [flush_metrics_to_remote, List.mem_map] at hu
  obtain ⟨v, hv, rfl⟩ := hu
  rcases h : v.need_sync with _ | _
  · simp [h]
  · simp [h, drainReset]

/-- A flush over an all-clean store drains nothing. -/
theorem flush_payload_of_clean (s : Store) (postOk : Bool)
    (h : ∀ u ∈ s, u.need_sync = false) :
    (flush_metrics_to_remote s postOk).2.1 = [] := by
  simp only [flush_metrics_to_remote]
  have hnil : s.filter (fun u => u.need_sync) = [] :=
    List.filter_eq_nil_iff.mpr (fun a ha => by simp [h a ha])
  rw [hnil]
  rfl

/-- C6: flush_metrics_to_remote drains inside the transaction and only then
posts: the resulting store and the outbound payload do not depend on
whether the post succeeds, and after the call every record — the drained
ones in particular — has need_sync = false, so a failed post never
re-marks the drained rows dirty. -/
theorem spec_C6_flush_clears_before_post (s : Store) (postOk : Bool) :
    (flush_metrics_to_remote s postOk).1 = (flush_metrics_to_remote s false).1 ∧
    (flush_metrics_to_remote s postOk).2.1 =
      (flush_metrics_to_remote s false).2.1 ∧
    ∀ u ∈ (flush_metrics_to_remote s postOk).1, u.need_sync = false :=
  ⟨rfl, rfl, flush_all_clean s postOk⟩

/-- C6 witness: the theorem applied to the one-dirty-user store, with the
membership hypothesis discharged on the drained record. -/
theorem spec_C6_flush_clears_before_post_witness :
    (flush_metrics_to_remote [uDirty] true).1 =
      (flush_metrics_to_remote [uDirty] false).1 ∧
    (drainReset uDirty).need_sync = false :=
  ⟨(spec_C6_flush_clears_before_post [uDirty] true).1,
   (spec_C6_flush_clears_before_post [uDirty] true).2.2 (drainReset uDirty)
     (by decide)⟩

/-- C2: inside the trial loop a MAC failure on the current candidate makes
the loop continue with the remaining candidates (one more trial counted),
while a non-MAC error stops the loop at once — the remaining candidates
are never tried — and makes the whole identification call re-raise,
returning the store unchanged. -/
theorem spec_C2_badmac_continues_other_errors_propagate
    (trial : String → TrialResult) (u : User) (rest : List User) :
    (trial u.password = TrialResult.badMAC →
      trialLoop trial (u :: rest) =
        ((trialLoop trial rest).1, (trialLoop trial rest).2 + 1)) ∧
    (trial u.password = TrialResult.otherError →
      trialLoop trial (u :: rest) = (LoopOut.errored, 1)) ∧
    ∀ (s : Store) (port : Nat) (saveOk : Bool),
      (trialLoop trial (list_by_port s port)).1 = LoopOut.errored →
      find_access_user_and_cipher_by_data s port trial saveOk =
        (IdOutcome.cipherError, s) := by
  refine ⟨?_, ?_, ?_⟩
  · intro h
    simp [trialLoop, h]
  · intro h
    simp [trialLoop, h]
  · intro s port saveOk h
    simp [find_access_user_and_cipher_by_data, h]

/-- C2 witness: the three implications instantiated on concrete oracles and
the one-user demo store, each hypothesis discharged by evaluation. -/
theorem spec_C2_badmac_continues_other_errors_propagate_witness :
    trialLoop trialAllBad (uA :: []) =
      ((trialLoop trialAllBad []).1, (trialLoop trialAllBad []).2 + 1) ∧
    trialLoop trialAllErr (uA :: []) = (LoopOut.errored, 1) ∧
    find_access_user_and_cipher_by_data demoStore 8388 trialAllErr true =
      (IdOutcome.cipherError, demoStore) :=
  ⟨(spec_C2_badmac_continues_other_errors_propagate trialAllBad uA []).1
      (by decide),
   (spec_C2_badmac_continues_other_errors_propagate trialAllErr uA []).2.1
      (by decide),
   (spec_C2_badmac_continues_other_errors_propagate trialAllErr uA []).2.2
      demoStore 8388 true (by decide)⟩

/-- C1 counterexample: with one candidate on the port whose trial raises a
non-MAC error, no candidate successfully decodes the first chunk, yet the
identification call does not end in NoAccessibleUser — the error
propagates instead — so the claimed if-and-only-if fails at this input. -/
theorem spec_C1_counterexample :
    ¬ (((find_access_user_and_cipher_by_data demoStore 8388 trialAllErr
          true).1 = IdOutcome.noAccessibleUser) ↔
       ((∀ u ∈ list_by_port demoStore 8388,
            trialAllErr u.password ≠ TrialResult.ok) ∨
        (∃ u, (list_by_port demoStore 8388).find?
            (fun v => trialAllErr v.password == TrialResult.ok) = some u ∧
          u.enable = false))) :=
  fun h => absurd (h.mpr (Or.inl (by decide))) (by decide)

/-- C1 amended: provided no candidate raises a non-MAC error (such an error
propagates instead of producing NoAccessibleUser), the identification call
ends in NoAccessibleUser exactly when either no candidate decodes the
first chunk or the first candidate that decodes it is disabled; and in the
no-match case every candidate on the port has been tried exactly once. -/
theorem spec_C1_amended (s : Store) (port : Nat)
    (trial : String → TrialResult) (saveOk : Bool)
    (hne : ∀ u ∈ list_by_port s port,
      trial u.password ≠ TrialResult.otherError) :
    (((find_access_user_and_cipher_by_data s port trial saveOk).1 =
        IdOutcome.noAccessibleUser) ↔
      ((∀ u ∈ list_by_port s port, trial u.password ≠ TrialResult.ok) ∨
       (∃ u, (list_by_port s port).find?
           (fun v => trial v.password == TrialResult.ok) = some u ∧
         u.enable = false))) ∧
    ((∀ u ∈ list_by_port s port, trial u.password ≠ TrialResult.ok) →
      (trialLoop trial (list_by_port s port)).2 =
        (list_by_port s port).length) := by
  constructor
  · rw [find_access_fst, trialLoop_char trial _ hne]
    cases hf : (list_by_port s port).find?
        (fun v => trial v.password == TrialResult.ok) with
    | none =>
      simp only [hf]
      constructor
      · intro _
        refine Or.inl fun u hu hok => ?_
        have := List.find?_eq_none.mp hf u hu
        simp [hok] at this
      · intro _
        trivial
    | some u =>
      have hmem := List.mem_of_find?_eq_some hf
      have hok : trial u.password = TrialResult.ok := by
        have := List.find?_some hf
        simpa using this
      rcases hbe : u.enable with _ | _
      · simp only [hf, hbe]
        constructor
        · intro _
          exact Or.inr ⟨u, rfl, hbe⟩
        · intro _
          simp
      · simp only [hf, hbe]
        constructor
        · intro hcontr
          rcases saveOk with _ | _ <;> simp at hcontr
        · rintro (hall | ⟨v, hv, hvene⟩)
          · exact absurd hok (hall u hmem)
          · cases hv
            rw [hbe] at hvene
            cases hvene
  · intro hnok
    have hall : ∀ u ∈ list_by_port s port,
        trial u.password = TrialResult.badMAC := by
      intro u hu
      rcases t : trial u.password with _ | _ | _
      · exact absurd t (hnok u hu)
      · rfl
      · exact absurd t (hne u hu)
    rw [trialLoop_allBad trial _ hall]

/-- C1 witness: the amended theorem evaluated on the one-user demo store
with an all-MAC-failure oracle; both hypotheses discharged by
evaluation. -/
theorem spec_C1_amended_witness :
    (trialLoop trialAllBad (list_by_port demoStore 8388)).2 =
      (list_by_port demoStore 8388).length :=
  (spec_C1_amended demoStore 8388 trialAllBad true (by decide)).2 (by decide)

/-- C4 counterexample: the sole candidate decodes and is enabled, so the
identification matched, yet with the access_order save failing the call
does not return the matched pair — it ends in the propagated save
failure. -/
theorem spec_C4_counterexample :
    (trialLoop trialMatchA (list_by_port demoStore 8388)).1 =
      LoopOut.found uA ∧
    uA.enable = true ∧
    (find_access_user_and_cipher_by_data demoStore 8388 trialMatchA
        false).1 ≠ IdOutcome.matched uA.user_id ∧
    (find_access_user_and_cipher_by_data demoStore 8388 trialMatchA
        false).1 = IdOutcome.saveError := by decide

/-- C4 amended: the access_order bump is not best-effort in the source —
there is no exception handling around the save at models.py:152 — so when
persisting the bump fails after a successful enabled match, the failure
propagates and the call ends in the save error with the store
unchanged, instead of returning the matched pair. -/
theorem spec_C4_amended (s : Store) (port : Nat)
    (trial : String → TrialResult) (u : User)
    (hfound : (trialLoop trial (list_by_port s port)).1 = LoopOut.found u)
    (hen : u.enable = true) :
    find_access_user_and_cipher_by_data s port trial false =
      (IdOutcome.saveError, s) := by
  simp only [find_access_user_and_cipher_by_data]
  rw [hfound]
  simp [hen]

/-- C4 witness: the amended theorem evaluated on the demo store where the
single enabled candidate decodes, with both hypotheses discharged by
evaluation. -/
theorem spec_C4_amended_witness :
    find_access_user_and_cipher_by_data demoStore 8388 trialMatchA false =
      (IdOutcome.saveError, demoStore) :=
  spec_C4_amended demoStore 8388 trialMatchA uA (by decide) (by decide)

/-- Demo definitions record carrying a user_id. -/
def dA : UserData :=
  { user_id := some 1, port := 8388, method := "aes-256-gcm",
    password := "pA", enable := true, speed_limit := 0 }

/-- Demo definitions record with the user_id key missing. -/
def dBad : UserData := { dA with user_id := none, password := "pX" }

/-- A record carrying a user_id always upserts successfully. -/
theorem create_or_update_user_some (s : Store) (d : UserData) (i : Nat)
    (h : d.user_id = some i) :
    ∃ s', create_or_update_user_from_data s d = some s' := by
  simp only [create_or_update_user_from_data, h]
  by_cases hc : s.any (fun u => u.user_id == i) <;> simp [hc]

/-- C5 counterexample: a payload whose second record is missing user_id
fails with MalformedDefinition, yet the store is not left in its prior
state — the first record has already been committed, so partial
application is observable. -/
theorem spec_C5_counterexample :
    (create_or_update_from_json [] [dA, dBad]).2 = true ∧
    (create_or_update_from_json [] [dA, dBad]).1 ≠ [] := by decide

/-- C5 amended: the upsert is per-record, not one atomic batch — each
record commits in its own transaction, and when a later record is missing
user_id the loop aborts with MalformedDefinition while everything applied
before the malformed record remains applied. -/
theorem spec_C5_amended :
    ∀ (pre : List UserData) (s : Store) (d : UserData)
      (post : List UserData),
      (∀ r ∈ pre, r.user_id ≠ none) → d.user_id = none →
      create_or_update_from_json s (pre ++ d :: post) =
        ((create_or_update_from_json s pre).1, true)
  | [], s, d, post, _, hd => by
    simp [create_or_update_from_json, create_or_update_user_from_data, hd]
  | r :: rest, s, d, post, hpre, hd => by
    obtain ⟨i, hi⟩ : ∃ i, r.user_id = some i := by
      rcases hR : r.user_id with _ | i
      · exact absurd hR (hpre r (List.mem_cons_self r rest))
      · exact ⟨i, rfl⟩
    obtain ⟨s', hs'⟩ := create_or_update_user_some s r i hi
    simp only [List.cons_append, create_or_update_from_json, hs']
    exact spec_C5_amended rest s' d post
      (fun x hx => hpre x (List.mem_cons_of_mem r hx)) hd

/-- C5 witness: the amended theorem evaluated on the two-record payload
whose second record is malformed, hypotheses discharged by evaluation. -/
theorem spec_C5_amended_witness :
    create_or_update_from_json [] [dA, dBad] =
      ((create_or_update_from_json [] [dA]).1, true) :=
  spec_C5_amended [dA] [] dBad [] (by decide) (by decide)

/-- After addTraffic(U, 100, 200) and addTraffic(U, 50, 0) from default
accounting state, the drained payload carries for U a snapshot with
upload 150, download 200, the untouched ip_list and tcp_conn_num. -/
theorem addTraffic_twice_drain_find : ∀ (s : Store) (uid : Nat),
    (∀ u ∈ s, u.user_id = uid →
      u.ip_list = [] ∧ u.upload_traffic = 0 ∧ u.download_traffic = 0 ∧
        u.tcp_conn_num = 0) →
    (∃ u ∈ s, u.user_id = uid) →
    ((flush_metrics_to_remote
        (record_traffic (record_traffic s uid 100 200) uid 50 0)
        true).2.1).find? (fun d => d.user_id == uid) =
      some { user_id := uid, ip_list := [], tcp_conn_num := 0,
             upload_traffic := 150, download_traffic := 200 }
  | [], uid, _, hmem => by simp at hmem
  | u :: t, uid, hdef, hmem => by
    by_cases h : u.user_id = uid
    · obtain ⟨hip, hup, hdown, htcp⟩ := hdef u (List.mem_cons_self u t) h
      simp [record_traffic, flush_metrics_to_remote, h, toMetricsData,
        List.find?_cons, hip, hup, hdown, htcp]
    · have ih := addTraffic_twice_drain_find t uid
        (fun v hv => hdef v (List.mem_cons_of_mem u hv))
        (by rcases hmem with ⟨w, hw, hwid⟩
            rcases List.mem_cons.mp hw with rfl | hwt
            · exact absurd hwid h
            · exact ⟨w, hwt, hwid⟩)
      by_cases hs : u.need_sync = true
      · simpa [record_traffic, flush_metrics_to_remote, h, hs,
          toMetricsData, List.find?_cons] using ih
      · simpa [record_traffic, flush_metrics_to_remote, h, hs,
          toMetricsData, List.find?_cons] using ih

/-- C7: for a user in default accounting state, addTraffic(U, 100, 200)
then addTraffic(U, 50, 0) then a drain yields a snapshot for U with
bytes_uploaded 150 and bytes_downloaded 200, and an immediately following
drain with no intervening writes yields no snapshot for U (nor for anyone
else). -/
theorem spec_C7_traffic_scenario (s : Store) (uid : Nat)
    (hdef : ∀ u ∈ s, u.user_id = uid →
      u.ip_list = [] ∧ u.upload_traffic = 0 ∧ u.download_traffic = 0 ∧
        u.tcp_conn_num = 0)
    (hmem : ∃ u ∈ s, u.user_id = uid) :
    ((flush_metrics_to_remote
        (record_traffic (record_traffic s uid 100 200) uid 50 0)
        true).2.1).find? (fun d => d.user_id == uid) =
      some { user_id := uid, ip_list := [], tcp_conn_num := 0,
             upload_traffic := 150, download_traffic := 200 } ∧
    ((flush_metrics_to_remote
        (flush_metrics_to_remote
          (record_traffic (record_traffic s uid 100 200) uid 50 0)
          true).1 true).2.1).find? (fun d => d.user_id == uid) = none := by
  refine ⟨addTraffic_twice_drain_find s uid hdef hmem, ?_⟩
  rw [flush_payload_of_clean _ true (flush_all_clean _ true)]
  rfl

/-- C7 witness: the scenario evaluated on the one-user demo store, both
hypotheses discharged by evaluation. -/
theorem spec_C7_traffic_scenario_witness :
    ((flush_metrics_to_remote
        (record_traffic (record_traffic demoStore 1 100 200) 1 50 0)
        true).2.1).find? (fun d => d.user_id == 1) =
      some { user_id := 1, ip_list := [], tcp_conn_num := 0,
             upload_traffic := 150, download_traffic := 200 } :=
  (spec_C7_traffic_scenario demoStore 1 (by decide) (by decide)).1

/-- Accounting invariant of one record. -/
def AccInv (u : User) : Prop :=
  (u.ip_list ≠ [] ∨ u.upload_traffic ≠ 0 ∨ u.download_traffic ≠ 0) →
  u.need_sync = true

theorem accinv_newUser (i : Nat) (d : UserData) : AccInv (newUser i d) := by
  intro h
  rcases h with h | h | h <;> exact absurd rfl h

theorem upsert_accinv : ∀ (payload : List UserData) (s : Store),
    (∀ u ∈ s, AccInv u) →
    ∀ u ∈ (create_or_update_from_json s payload).1, AccInv u
  | [], s, h => h
  | d :: rest, s, h => by
    rcases hid : d.user_id with _ | i
    · simpa [create_or_update_from_json, create_or_update_user_from_data,
        hid] using h
    · by_cases hex : s.any (fun u => u.user_id == i)
      · simp only [create_or_update_from_json,
          create_or_update_user_from_data, hid, hex, if_pos]
        refine upsert_accinv rest _ ?_
        intro u hu
        obtain ⟨v, hv, rfl⟩ := List.mem_map.mp hu
        by_cases hvi : v.user_id == i
        · rw [if_pos hvi]
          exact h v hv
        · rw [if_neg hvi]
          exact h v hv
      · simp only [create_or_update_from_json,
          create_or_update_user_from_data, hid, hex, if_neg]
        refine upsert_accinv rest _ ?_
        intro u hu
        rcases List.mem_append.mp hu with hus | hunew
        · exact h u hus
        · rcases List.mem_singleton.mp hunew with rfl
          exact accinv_newUser i d

theorem map_accinv (s : Store) (f : User → User)
    (hf : ∀ u, AccInv u → AccInv (f u)) (h : ∀ u ∈ s, AccInv u) :
    ∀ u ∈ s.map f, AccInv u := by
  intro u hu
  obtain ⟨v, hv, rfl⟩ := List.mem_map.mp hu
  exact hf v (h v hv)

/-- The store component of the identification call is either unchanged or
the matched bump of a single user. -/
theorem find_access_snd (s : Store) (port : Nat)
    (trial : String → TrialResult) (saveOk : Bool) :
    (find_access_user_and_cipher_by_data s port trial saveOk).2 = s ∨
    ∃ uid, (find_access_user_and_cipher_by_data s port trial saveOk).2 =
      markMatched s uid := by
  simp only [find_access_user_and_cipher_by_data]
  rcases (trialLoop trial (list_by_port s port)).1 with u | _ | _
  · dsimp only
    split_ifs
    · exact Or.inl rfl
    · exact Or.inr ⟨u.user_id, rfl⟩
    · exact Or.inl rfl
  · exact Or.inl rfl
  · exact Or.inl rfl

theorem reachable_accinv : ∀ (s : Store), Reachable s → ∀ u ∈ s, AccInv u := by
  intro s hr
  induction hr with
  | init => intro u hu; cases hu
  | upsert payload _ ih => exact upsert_accinv payload _ ih
  | recordIp uid peername _ ih =>
    rcases peername with _ | ⟨host, rest⟩
    · exact ih
    · refine map_accinv _ _ ?_ ih
      intro u hAcc
      by_cases hvi : u.user_id == uid
      · rw [if_pos hvi]
        intro _
        rfl
      · rw [if_neg hvi]
        exact hAcc
  | recordTraffic uid a b _ ih =>
    refine map_accinv _ _ ?_ ih
    intro u hAcc
    by_cases hvi : u.user_id == uid
    · rw [if_pos hvi]
      intro _
      rfl
    · rw [if_neg hvi]
      exact hAcc
  | incrTcp uid num _ ih =>
    refine map_accinv _ _ ?_ ih
    intro u hAcc
    by_cases hvi : u.user_id == uid
    · rw [if_pos hvi]
      intro _
      rfl
    · rw [if_neg hvi]
      exact hAcc
  | flush postOk _ ih =>
    refine map_accinv _ _ ?_ ih
    intro u hAcc
    by_cases hd : u.need_sync = true
    · rw [if_pos hd]
      intro habs
      rcases habs with h | h | h <;> exact absurd rfl h
    · rw [if_neg hd]
      exact hAcc
  | identify port trial saveOk _ ih =>
    rcases find_access_snd _ port trial saveOk with heq | ⟨uid, heq⟩
    · rw [heq]
      exact ih
    · rw [heq]
      refine map_accinv _ _ ?_ ih
      intro u hAcc
      by_cases hvi : u.user_id == uid
      · rw [if_pos hvi]
        exact hAcc
      · rw [if_neg hvi]
        exact hAcc

/-- A flush keeps the table shape and, pairing rows positionally, resets
exactly ip_list, upload_traffic, download_traffic and need_sync on dirty
rows, leaves clean rows untouched, and never changes any other field. -/
theorem flush_resets_exactly (s : Store) (postOk : Bool) :
    ((flush_metrics_to_remote s postOk).1).length = s.length ∧
    ∀ p ∈ s.zip (flush_metrics_to_remote s postOk).1,
      p.2.user_id = p.1.user_id ∧ p.2.port = p.1.port ∧
      p.2.method = p.1.method ∧ p.2.password = p.1.password ∧
      p.2.enable = p.1.enable ∧ p.2.speed_limit = p.1.speed_limit ∧
      p.2.access_order = p.1.access_order ∧
      p.2.tcp_conn_num = p.1.tcp_conn_num ∧
      (p.1.need_sync = true → p.2.ip_list = [] ∧ p.2.upload_traffic = 0 ∧
        p.2.download_traffic = 0 ∧ p.2.need_sync = false) ∧
      (p.1.need_sync = false → p.2 = p.1) := by
  constructor
  · simp [flush_metrics_to_remote]
  · have hz := List.zip_map' id
      (fun u => if u.need_sync then drainReset u else u) s
    rw [List.map_id] at hz
    dsimp only [flush_metrics_to_remote]
    rw [hz]
    intro p hp
    obtain ⟨v, hv, rfl⟩ := List.mem_map.mp hp
    by_cases hd : v.need_sync = true
    · simp [hd, drainReset]
    · simp only [Bool.not_eq_true] at hd
      simp [hd]

theorem spec_C3_amended :
    (∀ s : Store, Reachable s → ∀ u ∈ s,
      (u.ip_list ≠ [] ∨ u.upload_traffic ≠ 0 ∨ u.download_traffic ≠ 0) →
      u.need_sync = true) ∧
    (∀ (s : Store) (postOk : Bool),
      ((flush_metrics_to_remote s postOk).1).length = s.length ∧
      ∀ p ∈ s.zip (flush_metrics_to_remote s postOk).1,
        p.2.user_id = p.1.user_id ∧ p.2.port = p.1.port ∧
        p.2.method = p.1.method ∧ p.2.password = p.1.password ∧
        p.2.enable = p.1.enable ∧ p.2.speed_limit = p.1.speed_limit ∧
        p.2.access_order = p.1.access_order ∧
        p.2.tcp_conn_num = p.1.tcp_conn_num ∧
        (p.1.need_sync = true → p.2.ip_list = [] ∧
          p.2.upload_traffic = 0 ∧ p.2.download_traffic = 0 ∧
          p.2.need_sync = false) ∧
        (p.1.need_sync = false → p.2 = p.1)) :=
  ⟨fun s hr u hu => reachable_accinv s hr u hu,
   fun s postOk => flush_resets_exactly s postOk⟩

/-- Record produced by upserting dA into the empty store and then
incrementing its connection count once. -/
def uAfterIncr : User :=
  { (newUser 1 dA) with need_sync := true, tcp_conn_num := 1 }

/-- Record produced by upserting dA into the empty store and then adding
traffic (100, 200). -/
def uAfterTraffic : User :=
  { (newUser 1 dA) with upload_traffic := 100, download_traffic := 200,
                        need_sync := true }

theorem spec_C3_counterexample :
    ¬ (∀ s : Store, Reachable s → ∀ u ∈ s,
        (u.need_sync = true ↔
          (u.ip_list ≠ [] ∨ u.upload_traffic ≠ 0 ∨
            u.download_traffic ≠ 0))) :=
  fun hclaim =>
    absurd
      (hclaim _
        (Reachable.incrTcp 1 1 (Reachable.upsert [dA] Reachable.init))
        uAfterIncr
        (by decide))
      (by decide)

theorem spec_C3_amended_witness :
    uAfterTraffic.need_sync = true ∧
    (drainReset uDirty).access_order = uDirty.access_order :=
  ⟨spec_C3_amended.1 _
      (Reachable.recordTraffic 1 100 200 (Reachable.upsert [dA] Reachable.init))
      _ (by decide) (by decide),
   ((spec_C3_amended.2 [uDirty] true).2 (uDirty, drainReset uDirty)
      (by decide)).2.2.2.2.2.2.1⟩

theorem order_desc_insert_perm (u : User) :
    ∀ l : List User, (order_desc_insert u l).Perm (u :: l)
  | [] => List.Perm.refl _
  | v :: rest => by
    by_cases h : v.access_order ≤ u.access_order
    · rw [order_desc_insert, if_pos h]
    · rw [order_desc_insert, if_neg h]
      exact ((order_desc_insert_perm u rest).cons v).trans
        (List.Perm.swap u v rest)

theorem order_desc_sort_perm : ∀ l : List User, (order_desc_sort l).Perm l
  | [] => List.Perm.refl _
  | u :: rest =>
    (order_desc_insert_perm u (order_desc_sort rest)).trans
      ((order_desc_sort_perm rest).cons u)

theorem order_desc_insert_sorted (u : User) :
    ∀ l : List User,
      (l.Pairwise fun a b => b.access_order ≤ a.access_order) →
      ((order_desc_insert u l).Pairwise
        fun a b => b.access_order ≤ a.access_order)
  | [], _ => by simp [order_desc_insert]
  | v :: rest, h => by
    rw [List.pairwise_cons] at h
    by_cases hc : v.access_order ≤ u.access_order
    · rw [order_desc_insert, if_pos hc]
      refine List.Pairwise.cons ?_ (List.Pairwise.cons h.1 h.2)
      intro w hw
      rcases List.mem_cons.mp hw with rfl | hwr
      · exact hc
      · exact le_trans (h.1 w hwr) hc
    · rw [order_desc_insert, if_neg hc]
      refine List.Pairwise.cons ?_ (order_desc_insert_sorted u rest h.2)
      intro w hw
      rcases List.mem_cons.mp ((order_desc_insert_perm u rest).mem_iff.mp hw)
        with rfl | hwr
      · omega
      · exact h.1 w hwr

theorem order_desc_sort_sorted :
    ∀ l : List User,
      ((order_desc_sort l).Pairwise
        fun a b => b.access_order ≤ a.access_order)
  | [] => List.Pairwise.nil
  | u :: rest => order_desc_insert_sorted u _ (order_desc_sort_sorted rest)

/-- C9: list_by_port returns a permutation of exactly the records whose
port equals the given port, sorted by access_order descending; a record is
in the result iff it is a record of the store on that port. The read is a
pure function of the store state, so two calls over the same state yield
the same sequence, ties included. -/
theorem spec_C9_list_by_port (s : Store) (port : Nat) :
    (list_by_port s port).Perm (s.filter fun u => u.port == port) ∧
    ((list_by_port s port).Pairwise
      fun a b => b.access_order ≤ a.access_order) ∧
    (∀ u ∈ list_by_port s port, u.port = port) ∧
    (∀ u ∈ s, u.port = port → u ∈ list_by_port s port) := by
  refine ⟨order_desc_sort_perm _, order_desc_sort_sorted _, ?_, ?_⟩
  · intro u hu
    have := (order_desc_sort_perm _).mem_iff.mp hu
    have := List.of_mem_filter this
    simpa using this
  · intro u hu hp
    refine (order_desc_sort_perm _).mem_iff.mpr ?_
    exact List.mem_filter.mpr ⟨hu, by simpa using hp⟩

/-- C9 witness: the exactness conjuncts evaluated on the demo store, the
membership hypotheses discharged by evaluation. -/
theorem spec_C9_list_by_port_witness :
    uA.port = 8388 ∧ uA ∈ list_by_port demoStore 8388 :=
  ⟨(spec_C9_list_by_port demoStore 8388).2.2.1 uA (by decide),
   (spec_C9_list_by_port demoStore 8388).2.2.2 uA (by decide) (by decide)⟩

/-- The allow-list update applied to every row carrying the given id. -/
def mapSet (i : Nat) (d : UserData) (s : Store) : Store :=
  s.map fun u => if u.user_id == i then setAccessible d u else u

/-- Whether some row carries the given id. -/
def hasId (s : Store) (i : Nat) : Bool := s.any fun u => u.user_id == i

/-- The effect of one valid upsert record: update in place when the id
exists, append a fresh row otherwise. -/
def applyValid (i : Nat) (d : UserData) (s : Store) : Store :=
  if hasId s i then mapSet i d s else s ++ [newUser i d]

/-- The ids of the records the upsert loop reaches before the first
malformed record. -/
def vIds : List UserData → List Nat
  | [] => []
  | d :: rest =>
    match d.user_id with
    | none => []
    | some i => i :: vIds rest

theorem create_or_update_user_eq (s : Store) (d : UserData) (i : Nat)
    (h : d.user_id = some i) :
    create_or_update_user_from_data s d = some (applyValid i d s) := by
  simp only [create_or_update_user_from_data, h, applyValid, hasId, mapSet]
  by_cases hc : s.any (fun u => u.user_id == i) <;> simp [hc]

theorem AL_cons (s : Store) (d : UserData) (i : Nat) (ds : List UserData)
    (h : d.user_id = some i) :
    create_or_update_from_json s (d :: ds) =
      create_or_update_from_json (applyValid i d s) ds := by
  simp only [create_or_update_from_json, create_or_update_user_eq s d i h]

theorem setAccessible_setAccessible (d e : UserData) (u : User) :
    setAccessible e (setAccessible d u) = setAccessible e u := rfl

theorem mapSet_mapSet_same (i : Nat) (d e : UserData) (s : Store) :
    mapSet i e (mapSet i d s) = mapSet i e s := by
  simp only [mapSet, List.map_map]
  refine List.map_congr_left ?_
  intro u _
  simp only [Function.comp_apply]
  by_cases h : u.user_id = i <;> simp [setAccessible, h]

theorem mapSet_comm (i j : Nat) (d e : UserData) (s : Store) (hij : i ≠ j) :
    mapSet j e (mapSet i d s) = mapSet i d (mapSet j e s) := by
  simp only [mapSet, List.map_map]
  refine List.map_congr_left ?_
  intro u _
  simp only [Function.comp_apply]
  by_cases hi : u.user_id = i
  · have hj : u.user_id ≠ j := by rw [hi]; exact hij
    simp [setAccessible, hi, hj, hij]
  · by_cases hj : u.user_id = j
    · have hji : j ≠ i := fun hc => hij hc.symm
      simp [setAccessible, hi, hj, hji]
    · simp [setAccessible, hi, hj]

theorem mapSet_append_single (i : Nat) (d : UserData) (s : Store) (w : User) :
    mapSet i d (s ++ [w]) =
      mapSet i d s ++ [if w.user_id == i then setAccessible d w else w] := by
  simp [mapSet]

theorem hasId_mapSet (i j : Nat) (d : UserData) (s : Store) :
    hasId (mapSet i d s) j = hasId s j := by
  simp only [hasId, mapSet, List.any_map]
  congr 1
  funext u
  simp only [Function.comp_apply]
  by_cases h : u.user_id = i <;> simp [setAccessible, h]

theorem hasId_applyValid_mono (i j : Nat) (d : UserData) (s : Store)
    (h : hasId s j = true) : hasId (applyValid i d s) j = true := by
  rw [applyValid]
  by_cases hc : hasId s i
  · rw [if_pos hc, hasId_mapSet]
    exact h
  · rw [if_neg hc]
    simp only [hasId, List.any_append] at h ⊢
    simp [h]

theorem hasId_applyValid_self (i : Nat) (d : UserData) (s : Store) :
    hasId (applyValid i d s) i = true := by
  rw [applyValid]
  by_cases hc : hasId s i
  · rw [if_pos hc, hasId_mapSet]
    exact hc
  · rw [if_neg hc]
    simp [hasId, newUser]

theorem hasId_AL_mono :
    ∀ (p : List UserData) (s : Store) (j : Nat),
      hasId s j = true →
      hasId (create_or_update_from_json s p).1 j = true
  | [], s, j, h => h
  | d :: ds, s, j, h => by
    rcases hd : d.user_id with _ | i
    · simpa [create_or_update_from_json, create_or_update_user_from_data,
        hd] using h
    · rw [AL_cons s d i ds hd]
      exact hasId_AL_mono ds _ j (hasId_applyValid_mono i j d s h)

theorem mapSet_of_fixed (i : Nat) (d : UserData) (s : Store)
    (h : ∀ u ∈ s, u.user_id = i → setAccessible d u = u) :
    mapSet i d s = s := by
  rw [mapSet]
  have hc : ∀ u ∈ s,
      (if u.user_id == i then setAccessible d u else u) = id u := by
    intro u hu
    by_cases hui : u.user_id == i
    · rw [if_pos hui]
      exact h u hu (by simpa using hui)
    · rw [if_neg hui]
      rfl
  rw [List.map_congr_left hc, List.map_id]

theorem mapSet_of_not_hasId (i : Nat) (d : UserData) (s : Store)
    (h : hasId s i = false) : mapSet i d s = s := by
  refine mapSet_of_fixed i d s ?_
  intro u hu hui
  have := (List.any_eq_false.mp h) u hu
  simp [hui] at this

theorem AL_mapSet_absorb :
    ∀ (ds : List UserData) (X : Store) (i : Nat) (d : UserData),
      i ∈ vIds ds →
      create_or_update_from_json (mapSet i d X) ds =
        create_or_update_from_json X ds
  | [], _, i, d, h => by simp [vIds] at h
  | e :: es, X, i, d, h => by
    rcases he : e.user_id with _ | j
    · rw [vIds] at h
      simp [he] at h
    · rw [AL_cons _ e j es he, AL_cons X e j es he]
      by_cases hji : j = i
      · subst hji
        by_cases hx : hasId X j
        · have h1 : applyValid j e (mapSet j d X) = mapSet j e X := by
            rw [applyValid, hasId_mapSet, if_pos hx, mapSet_mapSet_same]
          have h2 : applyValid j e X = mapSet j e X := by
            rw [applyValid, if_pos hx]
          rw [h1, h2]
        · simp only [Bool.not_eq_true] at hx
          rw [mapSet_of_not_hasId j d X hx]
      · have hies : i ∈ vIds es := by
          rw [vIds] at h
          simp only [he] at h
          rcases List.mem_cons.mp h with rfl | hh
          · exact absurd rfl hji
          · exact hh
        by_cases hx : hasId X j
        · have h1 : applyValid j e (mapSet i d X) =
              mapSet i d (mapSet j e X) := by
            rw [applyValid, hasId_mapSet, if_pos hx,
              mapSet_comm i j d e X (fun hij => hji (hij.symm))]
          have h2 : applyValid j e X = mapSet j e X := by
            rw [applyValid, if_pos hx]
          rw [h1, h2]
          exact AL_mapSet_absorb es (mapSet j e X) i d hies
        · simp only [Bool.not_eq_true] at hx
          have h1 : applyValid j e (mapSet i d X) =
              mapSet i d (X ++ [newUser j e]) := by
            rw [applyValid, hasId_mapSet, if_neg (by simp [hx]),
              mapSet_append_single]
            have : ((newUser j e).user_id == i) = false := by
              simp only [newUser, beq_eq_false_iff_ne, ne_eq]
              intro hc
              exact hji hc
            rw [this]
            rfl
          have h2 : applyValid j e X = X ++ [newUser j e] := by
            rw [applyValid, if_neg (by simp [hx])]
          rw [h1, h2]
          exact AL_mapSet_absorb es (X ++ [newUser j e]) i d hies

theorem AL_frame_fixed :
    ∀ (ds : List UserData) (X : Store) (i : Nat) (d : UserData),
      i ∉ vIds ds →
      (∀ u ∈ X, u.user_id = i → setAccessible d u = u) →
      ∀ u ∈ (create_or_update_from_json X ds).1, u.user_id = i →
        setAccessible d u = u
  | [], _, _, _, _, hP => hP
  | e :: es, X, i, d, hni, hP => by
    rcases he : e.user_id with _ | j
    · intro u hu
      have hX : (create_or_update_from_json X (e :: es)).1 = X := by
        simp [create_or_update_from_json, create_or_update_user_from_data, he]
      rw [hX] at hu
      exact hP u hu
    · have hji : j ≠ i := by
        intro hc
        subst hc
        apply hni
        rw [vIds]
        simp [he]
      have hnies : i ∉ vIds es := by
        intro hc
        apply hni
        rw [vIds]
        simp [he, hc]
      rw [AL_cons X e j es he]
      refine AL_frame_fixed es (applyValid j e X) i d hnies ?_
      intro u hu hui
      rw [applyValid] at hu
      by_cases hx : hasId X j
      · rw [if_pos hx] at hu
        obtain ⟨v, hv, rfl⟩ := List.mem_map.mp hu
        by_cases hvj : v.user_id == j
        · rw [if_pos hvj] at hui ⊢
          have hvi : v.user_id = i := hui
          have hvje : v.user_id = j := by simpa using hvj
          exact absurd (hvje ▸ hvi) hji
        · rw [if_neg hvj] at hui ⊢
          exact hP v hv hui
      · rw [if_neg hx] at hu
        rcases List.mem_append.mp hu with hus | hone
        · exact hP u hus hui
        · rcases List.mem_singleton.mp hone with rfl
          exact absurd (show j = i from hui) hji

theorem AL_flag_store_indep :
    ∀ (p : List UserData) (X Y : Store),
      (create_or_update_from_json X p).2 =
        (create_or_update_from_json Y p).2
  | [], _, _ => rfl
  | d :: ds, X, Y => by
    rcases hd : d.user_id with _ | i
    · simp [create_or_update_from_json, create_or_update_user_from_data, hd]
    · rw [AL_cons X d i ds hd, AL_cons Y d i ds hd]
      exact AL_flag_store_indep ds _ _

theorem applyValid_fixed (i : Nat) (d : UserData) (s : Store) :
    ∀ u ∈ applyValid i d s, u.user_id = i → setAccessible d u = u := by
  rw [applyValid]
  by_cases hx : hasId s i
  · rw [if_pos hx]
    intro u hu hui
    obtain ⟨v, hv, rfl⟩ := List.mem_map.mp hu
    by_cases hvj : v.user_id == i
    · rw [if_pos hvj] at hui ⊢
      exact setAccessible_setAccessible d d v
    · rw [if_neg hvj] at hui ⊢
      exact absurd hui (by simpa using hvj)
  · rw [if_neg hx]
    intro u hu hui
    simp only [Bool.not_eq_true] at hx
    rcases List.mem_append.mp hu with hus | hone
    · have := List.any_eq_false.mp hx u hus
      simp [hui] at this
    · rcases List.mem_singleton.mp hone with rfl
      rfl

theorem AL_idem :
    ∀ (payload : List UserData) (s : Store),
      create_or_update_from_json (create_or_update_from_json s payload).1
          payload =
        create_or_update_from_json s payload
  | [], _ => rfl
  | d :: ds, s => by
    rcases hd : d.user_id with _ | i
    · simp [create_or_update_from_json, create_or_update_user_from_data, hd]
    · rw [AL_cons s d i ds hd]
      rw [AL_cons _ d i ds hd]
      have hhas : hasId
          (create_or_update_from_json (applyValid i d s) ds).1 i = true :=
        hasId_AL_mono ds _ i (hasId_applyValid_self i d s)
      have happ : applyValid i d
          (create_or_update_from_json (applyValid i d s) ds).1 =
          mapSet i d
            (create_or_update_from_json (applyValid i d s) ds).1 := by
        rw [applyValid, if_pos hhas]
      rw [happ]
      by_cases hin : i ∈ vIds ds
      · rw [AL_mapSet_absorb ds _ i d hin]
        exact AL_idem ds (applyValid i d s)
      · rw [mapSet_of_fixed i d _
          (AL_frame_fixed ds (applyValid i d s) i d hin
            (applyValid_fixed i d s))]
        exact AL_idem ds (applyValid i d s)

theorem upsert_user_ids (s : Store) (d : UserData) (s' : Store)
    (h : create_or_update_user_from_data s d = some s') :
    s'.map (fun u => u.user_id) = s.map (fun u => u.user_id) ∨
    ∃ i, d.user_id = some i ∧
      s'.map (fun u => u.user_id) = s.map (fun u => u.user_id) ++ [i] := by
  rcases hd : d.user_id with _ | i
  · simp [create_or_update_user_from_data, hd] at h
  · rw [create_or_update_user_eq s d i hd] at h
    injection h with h
    subst h
    rw [applyValid]
    by_cases hx : hasId s i
    · rw [if_pos hx]
      left
      rw [mapSet, List.map_map]
      refine List.map_congr_left ?_
      intro u _
      simp only [Function.comp_apply]
      by_cases hu : u.user_id = i <;> simp [setAccessible, hu]
    · rw [if_neg hx]
      right
      exact ⟨i, rfl, by simp [newUser]⟩

/-- C8: applying the same definitions payload twice leaves the store in
the same observable state as applying it once — including the abort
position when the payload has a malformed record — and a single upsert
never rewrites an existing user_id: the id sequence of the store is
either unchanged (update in place) or extended by the id of the one
created record. -/
theorem spec_C8_idempotent_upsert (payload : List UserData) (s : Store) :
    create_or_update_from_json (create_or_update_from_json s payload).1
        payload =
      create_or_update_from_json s payload ∧
    ∀ (d : UserData) (s' : Store),
      create_or_update_user_from_data s d = some s' →
      s'.map (fun u => u.user_id) = s.map (fun u => u.user_id) ∨
      ∃ i, d.user_id = some i ∧
        s'.map (fun u => u.user_id) = s.map (fun u => u.user_id) ++ [i] :=
  ⟨AL_idem payload s, fun d s' h => upsert_user_ids s d s' h⟩

/-- C8 witness: the per-record id conjunct applied to upserting dA into
the empty store, the hypothesis discharged by evaluation. -/
theorem spec_C8_idempotent_upsert_witness :
    ([newUser 1 dA].map (fun u => u.user_id) =
        ([] : Store).map (fun u => u.user_id)) ∨
    ∃ i, dA.user_id = some i ∧
      [newUser 1 dA].map (fun u => u.user_id) =
        ([] : Store).map (fun u => u.user_id) ++ [i] :=
  (spec_C8_idempotent_upsert [dA] []).2 dA [newUser 1 dA] (by decide)

end Shadowsocks
